import Mathlib

/-
Shallow embedding of the eventsourcing core.

The aggregate mutation engine and the snapshot engine are translated from
src/eventsourcing/domain.py. The application recorder is not part of the
source tree (only its conformance tests are, in
src/eventsourcing/tests/base_application_recorder_tests.py), so it is
modelled from the spec, constrained by the behaviour those tests demand.

Conventions of the embedding:
- Python UUIDs and datetimes become Nat values (the code only ever
  compares or copies them).
- A Python instance dictionary becomes an ordered association list from
  String keys to Nat values (StateMap), mirroring insertion order.
- A raised exception becomes an error value. Methods that mutate an
  aggregate in place return a pair of the aggregate after the statements
  that actually executed and an optional error, so that a statement
  executed before a raise is visible in the returned state and a raise
  before any mutation returns the input unchanged, exactly as in Python.
-/

/- Ordered association list standing for a Python instance dictionary
   with string keys. -/
abbrev StateMap := List (String × Nat)

/- Keyword arguments passed to an event constructor or an init method. -/
abbrev Kwargs := List (String × Nat)

/- Dictionary lookup: d.get(key). -/
def lookupField : StateMap → String → Option Nat
  | [], _ => none
  | (k, v) :: rest, key => if k = key then some v else lookupField rest key

/- Dictionary item assignment: d[key] = val. Replaces the value in place
   when the key is present, otherwise appends the new entry at the end,
   as Python dictionaries do. -/
def setField : StateMap → String → Nat → StateMap
  | [], key, val => [(key, val)]
  | (k, v) :: rest, key, val =>
    if k = key then (k, val) :: rest else (k, v) :: setField rest key val

/- Dictionary key removal: d.pop(key, default) removes the entry. A
   no-op when the key is absent. -/
def eraseField : StateMap → String → StateMap
  | [], _ => []
  | (k, v) :: rest, key => if k = key then rest else (k, v) :: eraseField rest key

/- Errors raised by the aggregate mutation engine in domain.py:
   TypeError from event construction, OriginatorIDError and
   OriginatorVersionError from AggregateEvent.mutate. -/
inductive DomainError where
  | typeError
  | originatorIDError (eventId aggregateId : Nat)
  | originatorVersionError (eventVersion expectedVersion : Nat)
  deriving DecidableEq

/- An ordinary aggregate event (class AggregateEvent): originator id,
   originator version, timestamp, and the state transition applied to the
   instance dictionary by its apply method. -/
structure AggregateEvent where
  originator_id : Nat
  originator_version : Nat
  timestamp : Nat
  apply : StateMap → StateMap

/- An aggregate created event (class AggregateCreated): carries the
   topic of the aggregate class and the keyword arguments for the
   aggregate init method. -/
structure AggregateCreated where
  originator_id : Nat
  originator_version : Nat
  timestamp : Nat
  originator_topic : String
  kwargs : Kwargs

/- The closed variant of events an aggregate can hold in its pending
   list: a created event or an ordinary aggregate event. -/
inductive PendingEvent where
  | created (e : AggregateCreated)
  | event (e : AggregateEvent)

/- An aggregate class: its topic, its declared class_version (default 1
   when the class declares none), the effect of its init method on the
   instance dictionary, whether the created event class accepts given
   keyword arguments, and its registered upcast methods
   upcast_vN_vN1 (none when the method is not defined on the class). -/
structure AggregateClass where
  topic : String
  class_version : Nat
  init : Kwargs → StateMap
  created_accepts : Kwargs → Bool
  upcasts : Nat → Option (StateMap → StateMap)

/- Topic resolution (resolve_topic): maps a topic string to the class it
   names, none when resolution fails. -/
abbrev Registry := String → Option AggregateClass

/- An aggregate instance. The attributes _id, _version and
   _pending_events of the Python instance dictionary are structure
   fields; every other attribute, including _created_on and
   _modified_on, lives in the fields map. cls is the runtime type of the
   instance. -/
structure Aggregate where
  id : Nat
  version : Nat
  cls : AggregateClass
  fields : StateMap
  pending_events : List PendingEvent

/- MetaAggregate.INITIAL_VERSION. -/
def MetaAggregate.INITIAL_VERSION : Nat := 1

/- AggregateEvent.mutate: checks the originator id, then checks that the
   originator version is the next in the sequence, then runs apply, then
   sets the aggregate version, then sets the modified time. An error is
   raised before any mutation statement runs, so the error cases return
   the aggregate exactly as given. -/
def AggregateEvent.mutate (e : AggregateEvent) (a : Aggregate) :
    Aggregate × Option DomainError :=
  let next_version := a.version + 1
  if e.originator_id ≠ a.id then
    (a, some (DomainError.originatorIDError e.originator_id a.id))
  else if e.originator_version ≠ next_version then
    (a, some (DomainError.originatorVersionError e.originator_version next_version))
  else
    let applied := { a with fields := e.apply a.fields }
    let versioned := { applied with version := e.originator_version }
    let timestamped :=
      { versioned with fields := setField versioned.fields "_modified_on" e.timestamp }
    (timestamped, none)

/- AggregateCreated.mutate: resolves the aggregate class from the
   originator topic, allocates a fresh instance, runs __base_init__
   (setting _id, _version, _created_on, _modified_on and an empty
   pending list) and then the class init method with the event keyword
   arguments. -/
def AggregateCreated.mutate (registry : Registry) (e : AggregateCreated) :
    Option Aggregate :=
  match registry e.originator_topic with
  | none => none
  | some cls =>
    some { id := e.originator_id
           version := e.originator_version
           cls := cls
           fields := ("_created_on", e.timestamp) :: ("_modified_on", e.timestamp)
                       :: cls.init e.kwargs
           pending_events := [] }

/- MetaAggregate._create: constructs the created event with the class
   topic, the given id, INITIAL_VERSION and the current time; a
   construction failure (keyword arguments rejected by the created event
   class) raises before anything happens; otherwise the event is applied
   to an absent aggregate and appended to the pending list of the fresh
   instance. -/
def MetaAggregate.create (registry : Registry) (cls : AggregateClass)
    (id now : Nat) (kw : Kwargs) : Option Aggregate :=
  if cls.created_accepts kw then
    match AggregateCreated.mutate registry
        ⟨id, MetaAggregate.INITIAL_VERSION, now, cls.topic, kw⟩ with
    | none => none
    | some agg =>
      some { agg with
               pending_events := agg.pending_events ++
                 [PendingEvent.created ⟨id, MetaAggregate.INITIAL_VERSION, now, cls.topic, kw⟩] }
  else none

/- An aggregate event class, as used by trigger_event: constructing an
   event from keyword arguments either fails with a TypeError (none) or
   yields the apply transition of the new event instance. A successfully
   constructed event always carries exactly the originator id, version
   and timestamp passed to the constructor, because the event class is a
   frozen dataclass. -/
structure AggregateEventClass where
  makeApply : Kwargs → Option (StateMap → StateMap)

/- Aggregate.trigger_event: constructs the next event in the sequence
   with originator_version = version + 1 and the current time; a
   TypeError from construction propagates with the aggregate untouched;
   otherwise the event mutates the aggregate and is appended to the
   pending list. -/
def Aggregate.trigger_event (a : Aggregate) (event_class : AggregateEventClass)
    (now : Nat) (kw : Kwargs) : Aggregate × Option DomainError :=
  let next_version := a.version + 1
  match event_class.makeApply kw with
  | none => (a, some DomainError.typeError)
  | some f =>
    let new_event : AggregateEvent :=
      { originator_id := a.id
        originator_version := next_version
        timestamp := now
        apply := f }
    match AggregateEvent.mutate new_event a with
    | (a2, some err) => (a2, some err)
    | (a2, none) =>
      ({ a2 with pending_events := a2.pending_events ++ [PendingEvent.event new_event] },
        none)

/- One command call: the event class it resolves, the current time at
   the call, and the keyword arguments. -/
structure TriggerCall where
  event_class : AggregateEventClass
  now : Nat
  kwargs : Kwargs

/- A sequence of successfully triggered commands: each call must return
   without an error. -/
def triggerMany : Aggregate → List TriggerCall → Option Aggregate
  | a, [] => some a
  | a, c :: rest =>
    match Aggregate.trigger_event a c.event_class c.now c.kwargs with
    | (a2, none) => triggerMany a2 rest
    | (_, some _) => none

/- The while loop of Aggregate.collect_events: pops the first pending
   event and appends it to the collected list until none remain. -/
def drainLoop : List PendingEvent → List PendingEvent → List PendingEvent × List PendingEvent
  | collected, [] => (collected, [])
  | collected, e :: rest => drainLoop (collected ++ [e]) rest

/- Aggregate.collect_events: drains the pending list and returns the
   collected events together with the aggregate afterwards. -/
def Aggregate.collect_events (a : Aggregate) : List PendingEvent × Aggregate :=
  match drainLoop [] a.pending_events with
  | (collected, remaining) => (collected, { a with pending_events := remaining })

/- A snapshot (class Snapshot): the state field holds the captured
   instance dictionary. -/
structure Snapshot where
  originator_id : Nat
  originator_version : Nat
  timestamp : Nat
  topic : String
  state : StateMap
  deriving DecidableEq

/- The body of the while loop of Snapshot.mutate, recursing on the
   number of remaining iterations: at each step the upcast method for
   the current version is looked up and applied; a missing upcast
   method raises. -/
def upcastSteps (cls : AggregateClass) : Nat → Nat → StateMap → Option StateMap
  | _, 0, st => some st
  | fromV, fuel + 1, st =>
    match cls.upcasts fromV with
    | none => none
    | some up => upcastSteps cls (fromV + 1) fuel (up st)

/- The while loop of Snapshot.mutate: while the recorded version is
   below the declared class version, apply one upcast step; the loop
   runs exactly class_version - fromV times. -/
def upcastLoop (cls : AggregateClass) (fromV : Nat) (st : StateMap) : Option StateMap :=
  upcastSteps cls fromV (cls.class_version - fromV) st

/- Snapshot.take: copies the instance dictionary, drops the pending
   events, records the declared class version under the key
   class_version when it is above 1, pops the id and version into the
   snapshot header, and tags the snapshot with the class topic. -/
def Snapshot.take (a : Aggregate) (now : Nat) : Snapshot :=
  let aggregate_state := a.fields
  let aggregate_state :=
    if a.cls.class_version > 1 then
      setField aggregate_state "class_version" a.cls.class_version
    else aggregate_state
  { originator_id := a.id
    originator_version := a.version
    timestamp := now
    topic := a.cls.topic
    state := aggregate_state }

/- Snapshot.mutate: resolves the class from the topic, pops the
   recorded class_version (default 1) out of the state mapping, applies
   the registered upcast steps one version at a time in ascending order,
   then assigns the resulting fields together with the stored id and
   version onto a freshly allocated instance with an empty pending
   list. -/
def Snapshot.mutate (registry : Registry) (s : Snapshot) : Option Aggregate :=
  match registry s.topic with
  | none => none
  | some cls =>
    let from_version := (lookupField s.state "class_version").getD 1
    let aggregate_state := eraseField s.state "class_version"
    match upcastLoop cls from_version aggregate_state with
    | none => none
    | some upcasted =>
      some { id := s.originator_id
             version := s.originator_version
             cls := cls
             fields := upcasted
             pending_events := [] }

/- Modelled from the spec: the durable form of an event handed to the
   recorder (class StoredEvent in eventsourcing.persistence, which is
   not part of the source tree). The opaque byte payload becomes a
   string. -/
structure StoredEvent where
  originator_id : Nat
  originator_version : Nat
  topic : String
  state : String
  deriving DecidableEq

/- Modelled from the spec: a stored event plus its globally assigned
   notification id. -/
structure Notification where
  id : Nat
  originator_id : Nat
  originator_version : Nat
  topic : String
  state : String
  deriving DecidableEq

/- Modelled from the spec: the recorder state is the committed events in
   commit order; the notification id of the event at position i is
   i + 1, so ids are dense over 1..max_notification_id. -/
structure Recorder where
  events : List StoredEvent
  deriving DecidableEq

def emptyRecorder : Recorder := ⟨[]⟩

/- The list a, a + 1, ..., a + n - 1 of n consecutive numbers. -/
def seqFrom : Nat → Nat → List Nat
  | _, 0 => []
  | a, n + 1 => a :: seqFrom (a + 1) n

/- The notifications of a list of stored events, ids assigned
   consecutively from k in list order. -/
def notificationsOf : Nat → List StoredEvent → List Notification
  | _, [] => []
  | k, e :: rest =>
    { id := k
      originator_id := e.originator_id
      originator_version := e.originator_version
      topic := e.topic
      state := e.state } :: notificationsOf (k + 1) rest

/- The return value of an insert call: each event of the batch paired
   with its notification id, ids assigned consecutively from k in input
   order. -/
def assignIds : Nat → List StoredEvent → List (StoredEvent × Nat)
  | _, [] => []
  | k, e :: rest => (e, k) :: assignIds (k + 1) rest

/- The originator versions already recorded for one originator id, in
   commit order. -/
def versionsOf (l : List StoredEvent) (oid : Nat) : List Nat :=
  (l.filter (fun e => e.originator_id == oid)).map StoredEvent.originator_version

def maxVersion (vs : List Nat) : Nat := vs.foldl max 0

/- Modelled from the spec: one event is admissible against the existing
   history when its originator has no recorded events yet (the
   conformance test fixes that a first version need not be 1: it inserts
   originator_version 0 and expects success), or when its version is
   exactly one above the highest recorded version of that originator,
   which rules out duplicates and gaps. -/
def admissible (existing : List StoredEvent) (e : StoredEvent) : Bool :=
  match versionsOf existing e.originator_id with
  | [] => true
  | v :: rest => e.originator_version == maxVersion (v :: rest) + 1

/- Modelled from the spec: a batch is checked left to right, each event
   against the history extended with the part of the batch before it, so
   internal duplicates and internal gaps are also rejected. -/
def insertCheck : List StoredEvent → List StoredEvent → Bool
  | _, [] => true
  | existing, e :: rest => admissible existing e && insertCheck (existing ++ [e]) rest

/- Modelled from the spec: insert_events persists the batch atomically.
   On conflict nothing becomes visible and the call fails; on success
   every event is appended in input order and assigned the next
   consecutive notification ids, which are returned with the events. -/
def Recorder.insert_events (r : Recorder) (batch : List StoredEvent) :
    Option (List (StoredEvent × Nat) × Recorder) :=
  if insertCheck r.events batch then
    some (assignIds (r.events.length + 1) batch, ⟨r.events ++ batch⟩)
  else none

/- A sequence of insert calls that must all commit without conflict. -/
def insertMany : Recorder → List (List StoredEvent) → Option Recorder
  | r, [] => some r
  | r, b :: rest =>
    match r.insert_events b with
    | none => none
    | some (_, r2) => insertMany r2 rest

/- Membership of a string in a topic list. -/
def memberStr (s : String) : List String → Bool
  | [] => false
  | t :: rest => (t == s) || memberStr s rest

/- Modelled from the spec: the row filter of select_notifications. A
   notification passes when its id is at least start, at most stop when
   a stop is given, and its topic is a member of the topic list when one
   is given. -/
def notifPred (start : Nat) (stop : Option Nat) (topics : Option (List String))
    (n : Notification) : Bool :=
  decide (start ≤ n.id) &&
    (match stop with
     | none => true
     | some s => decide (n.id ≤ s)) &&
    (match topics with
     | none => true
     | some ts => memberStr n.topic ts)

/- Modelled from the spec: select_notifications returns the passing
   notifications in ascending id order, at most limit of them, with
   their originally assigned ids unchanged. -/
def Recorder.select_notifications (r : Recorder) (start limit : Nat)
    (stop : Option Nat) (topics : Option (List String)) : List Notification :=
  ((notificationsOf 1 r.events).filter (notifPred start stop topics)).take limit

/- Modelled from the spec: select_events returns the stored events of
   one originator. Commit order restricted to one originator is version
   order, because committed versions of an originator only ever grow. -/
def Recorder.select_events (r : Recorder) (oid : Nat) : List StoredEvent :=
  r.events.filter (fun e => e.originator_id == oid)

/- Modelled from the spec: max_notification_id returns the highest
   assigned id, 0 on an empty store; ids are dense so this is the number
   of committed events. -/
def Recorder.max_notification_id (r : Recorder) : Nat := r.events.length

/- A list of versions is a contiguous ascending run: it equals the
   consecutive sequence starting at its own head. -/
def isContiguous (vs : List Nat) : Prop := vs = seqFrom (vs.headD 0) vs.length

/- Concrete sample data. -/

/- An apply method that assigns nothing, like the default
   AggregateEvent.apply. -/
def applyNothing : StateMap → StateMap := fun st => st

/- An event class whose constructor accepts any keyword arguments and
   whose apply method assigns nothing. -/
def ecNoop : AggregateEventClass := ⟨fun _ => some applyNothing⟩

/- An event class whose constructor rejects every call with a
   TypeError. -/
def ecRejecting : AggregateEventClass := ⟨fun _ => none⟩

/- A plain aggregate class with no declared class_version. -/
def clsW : AggregateClass :=
  { topic := "AggW"
    class_version := 1
    init := fun _ => []
    created_accepts := fun _ => true
    upcasts := fun _ => none }

def regW : Registry := fun t => if t = "AggW" then some clsW else none

/- An existing aggregate at version 1. -/
def aggW : Aggregate :=
  { id := 1
    version := 1
    cls := clsW
    fields := [("_created_on", 5), ("_modified_on", 5)]
    pending_events := [] }

/- An event whose originator id does not match aggW. -/
def evWrongId : AggregateEvent := ⟨5, 2, 9, applyNothing⟩

/- An event whose originator id matches aggW but whose version is not
   the next in the sequence. -/
def evWrongVersion : AggregateEvent := ⟨1, 7, 9, applyNothing⟩

/- An event for aggW with both the wrong originator id and the wrong
   originator version. -/
def evBothWrong : AggregateEvent := ⟨5, 7, 9, applyNothing⟩

/- The created event produced by MetaAggregate.create regW clsW 7 5 []. -/
def createdW : AggregateCreated := ⟨7, 1, 5, "AggW", []⟩

/- The aggregate produced by MetaAggregate.create regW clsW 7 5 []. -/
def aggC : Aggregate :=
  { id := 7
    version := 1
    cls := clsW
    fields := [("_created_on", 5), ("_modified_on", 5)]
    pending_events := [PendingEvent.created createdW] }

/- The aggregate aggC after two successfully triggered ecNoop commands
   at time 5. -/
def aggC2 : Aggregate :=
  { id := 7
    version := 3
    cls := clsW
    fields := [("_created_on", 5), ("_modified_on", 5)]
    pending_events := [PendingEvent.created createdW,
                       PendingEvent.event ⟨7, 2, 5, applyNothing⟩,
                       PendingEvent.event ⟨7, 3, 5, applyNothing⟩] }

/- An aggregate class declaring class_version 2, for the snapshot round
   trip. -/
def clsS : AggregateClass :=
  { topic := "AggS"
    class_version := 2
    init := fun _ => []
    created_accepts := fun _ => true
    upcasts := fun n => if n = 1 then some (fun st => setField st "y" 2) else none }

def regS : Registry := fun t => if t = "AggS" then some clsS else none

/- An aggregate of class clsS with one user field and a pending
   event. -/
def aggS : Aggregate :=
  { id := 7
    version := 4
    cls := clsS
    fields := [("_created_on", 5), ("_modified_on", 6), ("x", 42)]
    pending_events := [PendingEvent.event ⟨7, 4, 6, applyNothing⟩] }

/- An aggregate class with no declared class_version whose instances
   happen to carry a field named class_version. -/
def clsCX : AggregateClass :=
  { topic := "AggCX"
    class_version := 1
    init := fun _ => []
    created_accepts := fun _ => true
    upcasts := fun _ => none }

def regCX : Registry := fun t => if t = "AggCX" then some clsCX else none

/- An aggregate carrying an ordinary field that is literally named
   class_version. -/
def aggCX : Aggregate :=
  { id := 7
    version := 4
    cls := clsCX
    fields := [("x", 1), ("class_version", 5)]
    pending_events := [] }

/- The first upcast step of cls3, from schema version 1 to 2. -/
def up12 : StateMap → StateMap := fun st => setField st "b" 2

/- The second upcast step of cls3, from schema version 2 to 3. -/
def up23 : StateMap → StateMap := fun st => setField st "c" 3

/- An aggregate class declaring class_version 3 with both upcast steps
   registered. -/
def cls3 : AggregateClass :=
  { topic := "Agg3"
    class_version := 3
    init := fun _ => []
    created_accepts := fun _ => true
    upcasts := fun n => if n = 1 then some up12 else if n = 2 then some up23 else none }

/- An aggregate class declaring class_version 3 with the first upcast
   step missing. -/
def cls3noFirst : AggregateClass :=
  { cls3 with topic := "Agg3a", upcasts := fun n => if n = 2 then some up23 else none }

/- An aggregate class declaring class_version 3 with the second upcast
   step missing. -/
def cls3noSecond : AggregateClass :=
  { cls3 with topic := "Agg3b", upcasts := fun n => if n = 1 then some up12 else none }

def reg3 : Registry := fun t =>
  if t = "Agg3" then some cls3
  else if t = "Agg3a" then some cls3noFirst
  else if t = "Agg3b" then some cls3noSecond
  else none

/- A snapshot recorded at schema version 1, to be restored by a class
   now declaring schema version 3. -/
def snap3 : Snapshot :=
  { originator_id := 7
    originator_version := 4
    timestamp := 9
    topic := "Agg3"
    state := [("class_version", 1), ("_created_on", 5), ("_modified_on", 6), ("a", 1)] }

def snap3a : Snapshot := { snap3 with topic := "Agg3a" }

def snap3b : Snapshot := { snap3 with topic := "Agg3b" }

/- The three stored events written by the conformance test
   test_insert_select: two for the first originator, with versions 0
   and 1, then one for a second originator. -/
def ev1 : StoredEvent := ⟨1, 0, "topic1", "state1"⟩

def ev2 : StoredEvent := ⟨1, 1, "topic2", "state2"⟩

def ev3 : StoredEvent := ⟨2, 1, "topic3", "state3"⟩

/- The recorder after the two insert calls of the conformance test. -/
def recorder3 : Recorder := ⟨[ev1, ev2, ev3]⟩

/- A stored event with the same originator id and version as ev1 but a
   different payload. -/
def evDup : StoredEvent := ⟨1, 0, "topicX", "stateX"⟩

/- A stored event whose version leaves a gap above the history of its
   originator. -/
def evGap : StoredEvent := ⟨1, 5, "topicY", "stateY"⟩

/- The notification assigned to ev1: global id 1. -/
def nW : Notification := ⟨1, 1, 0, "topic1", "state1"⟩

/- Helper lemmas. -/

theorem lookupField_setField_self (m : StateMap) (k : String) (v : Nat) :
    lookupField (setField m k v) k = some v := by
  induction m with
  | nil => simp [setField, lookupField]
  | cons p rest ih =>
    obtain ⟨k1, v1⟩ := p
    by_cases h : k1 = k
    · simp [setField, h, lookupField]
    · simp [setField, h, lookupField, ih]

theorem eraseField_of_none (m : StateMap) (k : String)
    (h : lookupField m k = none) : eraseField m k = m := by
  induction m with
  | nil => rfl
  | cons p rest ih =>
    obtain ⟨k1, v1⟩ := p
    by_cases hk : k1 = k
    · simp [lookupField, hk] at h
    · simp [lookupField, hk] at h
      simp [eraseField, hk, ih h]

theorem eraseField_setField_of_none (m : StateMap) (k : String) (v : Nat)
    (h : lookupField m k = none) : eraseField (setField m k v) k = m := by
  induction m with
  | nil => simp [setField, eraseField]
  | cons p rest ih =>
    obtain ⟨k1, v1⟩ := p
    by_cases hk : k1 = k
    · simp [lookupField, hk] at h
    · simp [lookupField, hk] at h
      simp [setField, eraseField, hk, ih h]

theorem seqFrom_concat (n a : Nat) : seqFrom a (n + 1) = seqFrom a n ++ [a + n] := by
  induction n generalizing a with
  | zero => simp [seqFrom]
  | succ m ih =>
    rw [seqFrom, ih (a + 1), seqFrom]
    simp [Nat.add_assoc, Nat.add_comm 1 m]

theorem foldl_max_seqFrom (n a acc : Nat) :
    (seqFrom a (n + 1)).foldl max acc = max acc (a + n) := by
  induction n generalizing a acc with
  | zero => simp [seqFrom]
  | succ m ih =>
    rw [seqFrom, List.foldl_cons, ih (a + 1) (max acc a)]
    rcases Nat.le_total acc a with h | h
    · rw [Nat.max_eq_right h, Nat.max_eq_right (show a ≤ a + 1 + m by omega),
        Nat.max_eq_right (show acc ≤ a + (m + 1) by omega)]
      omega
    · rw [Nat.max_eq_left h]
      have harith : a + 1 + m = a + (m + 1) := by omega
      rw [harith]

theorem maxVersion_seqFrom (n a : Nat) : maxVersion (seqFrom a (n + 1)) = a + n := by
  rw [maxVersion, foldl_max_seqFrom]
  exact Nat.zero_max _

theorem drainLoop_spec (l acc : List PendingEvent) :
    drainLoop acc l = (acc ++ l, []) := by
  induction l generalizing acc with
  | nil => simp [drainLoop]
  | cons e rest ih => simp [drainLoop, ih]

theorem trigger_event_none (a : Aggregate) (ec : AggregateEventClass)
    (now : Nat) (kw : Kwargs) (hm : ec.makeApply kw = none) :
    Aggregate.trigger_event a ec now kw = (a, some DomainError.typeError) := by
  simp [Aggregate.trigger_event, hm]

theorem trigger_event_some (a : Aggregate) (ec : AggregateEventClass)
    (now : Nat) (kw : Kwargs) (f : StateMap → StateMap)
    (hm : ec.makeApply kw = some f) :
    Aggregate.trigger_event a ec now kw =
      ({ id := a.id
         version := a.version + 1
         cls := a.cls
         fields := setField (f a.fields) "_modified_on" now
         pending_events :=
           a.pending_events ++ [PendingEvent.event ⟨a.id, a.version + 1, now, f⟩] },
        none) := by
  simp [Aggregate.trigger_event, hm, AggregateEvent.mutate]

theorem trigger_event_ok (a : Aggregate) (ec : AggregateEventClass)
    (now : Nat) (kw : Kwargs) (a2 : Aggregate)
    (h : Aggregate.trigger_event a ec now kw = (a2, none)) :
    a2.version = a.version + 1 ∧ a2.id = a.id := by
  cases hm : ec.makeApply kw with
  | none =>
    rw [trigger_event_none a ec now kw hm] at h
    simp at h
  | some f =>
    rw [trigger_event_some a ec now kw f hm] at h
    obtain ⟨h1, h2⟩ := Prod.mk.injEq .. ▸ h
    rw [← h1]
    constructor <;> rfl

theorem triggerMany_version_id (calls : List TriggerCall) (a a2 : Aggregate)
    (h : triggerMany a calls = some a2) :
    a2.version = a.version + calls.length ∧ a2.id = a.id := by
  induction calls generalizing a with
  | nil =>
    rw [triggerMany] at h
    cases h
    simp
  | cons c rest ih =>
    rw [triggerMany] at h
    cases ht : Aggregate.trigger_event a c.event_class c.now c.kwargs with
    | mk a1 err =>
      rw [ht] at h
      cases err with
      | some e => simp at h
      | none =>
        obtain ⟨hv, hid⟩ := trigger_event_ok a c.event_class c.now c.kwargs a1 ht
        obtain ⟨hv2, hid2⟩ := ih a1 h
        constructor
        · rw [hv2, hv]; simp [Nat.add_assoc, Nat.add_comm 1 rest.length]
        · rw [hid2, hid]

theorem notificationsOf_length (k : Nat) (l : List StoredEvent) :
    (notificationsOf k l).length = l.length := by
  induction l generalizing k with
  | nil => rfl
  | cons e rest ih => simp [notificationsOf, ih]

theorem notificationsOf_map_id (k : Nat) (l : List StoredEvent) :
    (notificationsOf k l).map Notification.id = seqFrom k l.length := by
  induction l generalizing k with
  | nil => rfl
  | cons e rest ih => simp [notificationsOf, seqFrom, ih]

theorem notificationsOf_id_ge (k : Nat) (l : List StoredEvent) :
    ∀ n ∈ notificationsOf k l, k ≤ n.id := by
  induction l generalizing k with
  | nil => intro n hn; simp [notificationsOf] at hn
  | cons e rest ih =>
    intro n hn
    simp only [notificationsOf, List.mem_cons] at hn
    rcases hn with hn | hn
    · rw [hn]
    · exact Nat.le_trans (Nat.le_succ k) (ih (k + 1) n hn)

theorem notificationsOf_pairwise (k : Nat) (l : List StoredEvent) :
    List.Pairwise (fun m n => m.id < n.id) (notificationsOf k l) := by
  induction l generalizing k with
  | nil => exact List.Pairwise.nil
  | cons e rest ih =>
    rw [notificationsOf]
    refine List.Pairwise.cons ?_ (ih (k + 1))
    intro n hn
    exact Nat.lt_of_lt_of_le (Nat.lt_succ_self k) (notificationsOf_id_ge (k + 1) rest n hn)

theorem assignIds_map_fst (k : Nat) (l : List StoredEvent) :
    (assignIds k l).map Prod.fst = l := by
  induction l generalizing k with
  | nil => rfl
  | cons e rest ih => simp [assignIds, ih]

theorem assignIds_map_snd (k : Nat) (l : List StoredEvent) :
    (assignIds k l).map Prod.snd = seqFrom k l.length := by
  induction l generalizing k with
  | nil => rfl
  | cons e rest ih => simp [assignIds, seqFrom, ih]

theorem insert_events_some (r : Recorder) (b : List StoredEvent)
    (out : List (StoredEvent × Nat)) (r2 : Recorder)
    (h : r.insert_events b = some (out, r2)) :
    out = assignIds (r.events.length + 1) b ∧
      r2.events = r.events ++ b ∧ insertCheck r.events b = true := by
  rw [Recorder.insert_events] at h
  by_cases hc : insertCheck r.events b = true
  · rw [if_pos hc] at h
    have h2 := Option.some.inj h
    exact ⟨(congrArg Prod.fst h2).symm, (congrArg (fun p => p.2.events) h2).symm, hc⟩
  · rw [if_neg hc] at h
    simp at h

theorem insertMany_length (bs : List (List StoredEvent)) (r r2 : Recorder)
    (h : insertMany r bs = some r2) :
    r2.events.length = r.events.length + (bs.map List.length).sum := by
  induction bs generalizing r with
  | nil =>
    rw [insertMany] at h
    cases h
    simp
  | cons b rest ih =>
    rw [insertMany] at h
    cases hi : r.insert_events b with
    | none => rw [hi] at h; simp at h
    | some p =>
      obtain ⟨out, r1⟩ := p
      rw [hi] at h
      have hshape := insert_events_some r b out r1 hi
      have hlen := ih r1 h
      rw [hlen, hshape.2.1]
      simp [Nat.add_assoc]

theorem notifPred_all_none (n : Notification) :
    notifPred 1 none none n = decide (1 ≤ n.id) := by
  simp [notifPred]

theorem select_all_ids (r : Recorder) :
    (r.select_notifications 1 r.events.length none none).map Notification.id =
      seqFrom 1 r.events.length := by
  rw [Recorder.select_notifications]
  have hfilter : (notificationsOf 1 r.events).filter (notifPred 1 none none) =
      notificationsOf 1 r.events := by
    rw [List.filter_eq_self]
    intro n hn
    rw [notifPred_all_none]
    exact decide_eq_true (notificationsOf_id_ge 1 r.events n hn)
  rw [hfilter]
  have hlen : r.events.length = (notificationsOf 1 r.events).length :=
    (notificationsOf_length 1 r.events).symm
  rw [hlen, List.take_length, notificationsOf_map_id, notificationsOf_length]

theorem memberStr_iff (s : String) (ts : List String) :
    memberStr s ts = true ↔ s ∈ ts := by
  induction ts with
  | nil => simp [memberStr]
  | cons t rest ih =>
    simp [memberStr, ih, Bool.or_eq_true, beq_iff_eq]
    constructor
    · rintro (h | h)
      · exact Or.inl h.symm
      · exact Or.inr h
    · rintro (h | h)
      · exact Or.inl h.symm
      · exact Or.inr h

theorem notifPred_topics (start : Nat) (ts : List String) (n : Notification) :
    notifPred start none (some ts) n = (decide (start ≤ n.id) && memberStr n.topic ts) := by
  simp [notifPred]

theorem mem_select_topics (r : Recorder) (start limit : Nat) (ts : List String)
    (n : Notification) (h : n ∈ r.select_notifications start limit none (some ts)) :
    n.topic ∈ ts ∧ start ≤ n.id ∧ n ∈ notificationsOf 1 r.events := by
  rw [Recorder.select_notifications] at h
  have h2 := List.mem_of_mem_take h
  rw [List.mem_filter, notifPred_topics, Bool.and_eq_true, decide_eq_true_eq,
    memberStr_iff] at h2
  exact ⟨h2.2.2, h2.2.1, h2.1⟩

theorem select_topics_pairwise (r : Recorder) (start limit : Nat) (ts : List String) :
    List.Pairwise (fun m n => m.id < n.id)
      (r.select_notifications start limit none (some ts)) := by
  rw [Recorder.select_notifications]
  exact ((notificationsOf_pairwise 1 r.events).filter _).sublist (List.take_sublist _ _)

theorem select_topics_complete (r : Recorder) (start limit : Nat) (ts : List String)
    (n : Notification) (hlim : r.events.length ≤ limit) :
    n ∈ r.select_notifications start limit none (some ts) ↔
      n ∈ notificationsOf 1 r.events ∧ n.topic ∈ ts ∧ start ≤ n.id := by
  rw [Recorder.select_notifications]
  have hle : ((notificationsOf 1 r.events).filter (notifPred start none (some ts))).length
      ≤ limit := by
    refine Nat.le_trans (List.length_filter_le _ _) ?_
    rw [notificationsOf_length]
    exact hlim
  rw [List.take_of_length_le hle, List.mem_filter, notifPred_topics, Bool.and_eq_true,
    decide_eq_true_eq, memberStr_iff]
  constructor
  · rintro ⟨h1, h2, h3⟩
    exact ⟨h1, h3, h2⟩
  · rintro ⟨h1, h2, h3⟩
    exact ⟨h1, h3, h2⟩

theorem versionsOf_append (l1 l2 : List StoredEvent) (oid : Nat) :
    versionsOf (l1 ++ l2) oid = versionsOf l1 oid ++ versionsOf l2 oid := by
  simp [versionsOf]

theorem versionsOf_single_same (e : StoredEvent) :
    versionsOf [e] e.originator_id = [e.originator_version] := by
  simp [versionsOf]

theorem versionsOf_single_other (e : StoredEvent) (oid : Nat)
    (h : e.originator_id ≠ oid) : versionsOf [e] oid = [] := by
  simp [versionsOf, h]

theorem mem_versionsOf (l : List StoredEvent) (x : StoredEvent) (oid : Nat)
    (hx : x ∈ l) (hid : x.originator_id = oid) :
    x.originator_version ∈ versionsOf l oid := by
  rw [versionsOf]
  exact List.mem_map_of_mem _ (List.mem_filter.mpr ⟨hx, by simp [hid]⟩)

theorem foldl_max_init_le (vs : List Nat) (acc : Nat) : acc ≤ vs.foldl max acc := by
  induction vs generalizing acc with
  | nil => exact Nat.le_refl acc
  | cons v rest ih =>
    rw [List.foldl_cons]
    exact Nat.le_trans (Nat.le_max_left acc v) (ih (max acc v))

theorem le_foldl_max (vs : List Nat) (a : Nat) (ha : a ∈ vs) (acc : Nat) :
    a ≤ vs.foldl max acc := by
  induction vs generalizing acc with
  | nil => simp at ha
  | cons v rest ih =>
    rw [List.foldl_cons]
    rcases List.mem_cons.mp ha with h | h
    · rw [h]
      exact Nat.le_trans (Nat.le_max_right acc v) (foldl_max_init_le rest _)
    · exact ih h (max acc v)

theorem le_maxVersion (vs : List Nat) (a : Nat) (ha : a ∈ vs) : a ≤ maxVersion vs :=
  le_foldl_max vs a ha 0

theorem admissible_spec (ex : List StoredEvent) (e : StoredEvent)
    (h : admissible ex e = true) :
    versionsOf ex e.originator_id = [] ∨
      e.originator_version = maxVersion (versionsOf ex e.originator_id) + 1 := by
  rw [admissible] at h
  cases hv : versionsOf ex e.originator_id with
  | nil => exact Or.inl rfl
  | cons v rest =>
    rw [hv] at h
    rw [beq_iff_eq] at h
    exact Or.inr h

theorem admissible_false_of_mem (ex : List StoredEvent) (e : StoredEvent)
    (hmem : e.originator_version ∈ versionsOf ex e.originator_id) :
    admissible ex e = false := by
  rw [admissible]
  cases hv : versionsOf ex e.originator_id with
  | nil => rw [hv] at hmem; simp at hmem
  | cons v rest =>
    rw [hv] at hmem
    have hle : e.originator_version ≤ maxVersion (v :: rest) :=
      le_maxVersion (v :: rest) _ hmem
    rw [beq_eq_false_iff_ne]
    omega

theorem contiguous_append_max (vs : List Nat) (x : Nat) (h : isContiguous vs)
    (hx : vs = [] ∨ x = maxVersion vs + 1) : isContiguous (vs ++ [x]) := by
  cases vs with
  | nil =>
    show [x] = seqFrom ([x].headD 0) [x].length
    simp [seqFrom]
  | cons v rest =>
    rcases hx with hx | hx
    · simp at hx
    · rw [isContiguous] at h
      simp only [List.headD_cons, List.length_cons] at h
      rw [h, maxVersion_seqFrom] at hx
      show (v :: rest) ++ [x] =
        seqFrom (((v :: rest) ++ [x]).headD 0) ((v :: rest) ++ [x]).length
      have hhead : ((v :: rest) ++ [x]).headD 0 = v := rfl
      have hlen : ((v :: rest) ++ [x]).length = (rest.length + 1) + 1 := by simp
      rw [hhead, hlen, seqFrom_concat, ← h, hx]
      have harith : v + rest.length + 1 = v + (rest.length + 1) := by omega
      rw [harith]

theorem isContiguous_nil : isContiguous [] := rfl

theorem insert_step_contiguous (ex : List StoredEvent) (e : StoredEvent)
    (hinv : ∀ oid, isContiguous (versionsOf ex oid))
    (hadm : admissible ex e = true) :
    ∀ oid, isContiguous (versionsOf (ex ++ [e]) oid) := by
  intro oid
  rw [versionsOf_append]
  by_cases hid : e.originator_id = oid
  · rw [← hid, versionsOf_single_same]
    refine contiguous_append_max _ _ (hid ▸ hinv oid) ?_
    rcases admissible_spec ex e hadm with h | h
    · exact Or.inl h
    · exact Or.inr h
  · rw [versionsOf_single_other e oid hid, List.append_nil]
    exact hinv oid

theorem insertCheck_contiguous (b : List StoredEvent) (ex : List StoredEvent)
    (hinv : ∀ oid, isContiguous (versionsOf ex oid))
    (hchk : insertCheck ex b = true) :
    ∀ oid, isContiguous (versionsOf (ex ++ b) oid) := by
  induction b generalizing ex with
  | nil => intro oid; rw [List.append_nil]; exact hinv oid
  | cons e rest ih =>
    rw [insertCheck, Bool.and_eq_true] at hchk
    have hstep := insert_step_contiguous ex e hinv hchk.1
    have hrest := ih (ex ++ [e]) hstep hchk.2
    intro oid
    have hassoc : ex ++ e :: rest = (ex ++ [e]) ++ rest := by simp
    rw [hassoc]
    exact hrest oid

theorem insertMany_contiguous (bs : List (List StoredEvent)) (r r2 : Recorder)
    (h : insertMany r bs = some r2)
    (hinv : ∀ oid, isContiguous (versionsOf r.events oid)) :
    ∀ oid, isContiguous (versionsOf r2.events oid) := by
  induction bs generalizing r with
  | nil =>
    rw [insertMany] at h
    cases h
    exact hinv
  | cons b rest ih =>
    rw [insertMany] at h
    cases hi : r.insert_events b with
    | none => rw [hi] at h; simp at h
    | some p =>
      obtain ⟨out, r1⟩ := p
      rw [hi] at h
      obtain ⟨_, hev, hchk⟩ := insert_events_some r b out r1 hi
      refine ih r1 h ?_
      intro oid
      rw [hev]
      exact insertCheck_contiguous b r.events hinv hchk oid

theorem insertCheck_false_of_dup (b : List StoredEvent) (ex : List StoredEvent)
    (x e : StoredEvent) (hx : x ∈ ex) (he : e ∈ b)
    (hid : x.originator_id = e.originator_id)
    (hver : x.originator_version = e.originator_version) :
    insertCheck ex b = false := by
  induction b generalizing ex with
  | nil => simp at he
  | cons e1 rest ih =>
    rw [insertCheck]
    rcases List.mem_cons.mp he with he1 | he1
    · have hadm : admissible ex e = false :=
        admissible_false_of_mem ex e (hver ▸ mem_versionsOf ex x e.originator_id hx hid)
      rw [← he1, hadm]
      rfl
    · have hrest : insertCheck (ex ++ [e1]) rest = false :=
        ih (ex ++ [e1]) (List.mem_append_left [e1] hx) he1
      rw [hrest]
      exact Bool.and_false _

theorem insert_events_none_of_dup (r : Recorder) (b : List StoredEvent)
    (x e : StoredEvent) (hx : x ∈ r.events) (he : e ∈ b)
    (hid : x.originator_id = e.originator_id)
    (hver : x.originator_version = e.originator_version) :
    r.insert_events b = none := by
  rw [Recorder.insert_events]
  rw [if_neg]
  rw [insertCheck_false_of_dup b r.events x e hx he hid hver]
  simp

theorem insert_events_none_of_gap (r : Recorder) (e : StoredEvent)
    (hne : versionsOf r.events e.originator_id ≠ [])
    (hgap : e.originator_version ≠ maxVersion (versionsOf r.events e.originator_id) + 1) :
    r.insert_events [e] = none := by
  rw [Recorder.insert_events]
  rw [if_neg]
  intro hchk
  rw [insertCheck, Bool.and_eq_true] at hchk
  rcases admissible_spec r.events e hchk.1 with h | h
  · exact hne h
  · exact hgap h

theorem create_some (registry : Registry) (cls : AggregateClass) (id now : Nat)
    (kw : Kwargs) (a : Aggregate)
    (h : MetaAggregate.create registry cls id now kw = some a) :
    a.version = MetaAggregate.INITIAL_VERSION ∧ a.id = id := by
  rw [MetaAggregate.create] at h
  by_cases hacc : cls.created_accepts kw = true
  · rw [if_pos hacc] at h
    cases hm : AggregateCreated.mutate registry
        ⟨id, MetaAggregate.INITIAL_VERSION, now, cls.topic, kw⟩ with
    | none => rw [hm] at h; simp at h
    | some agg =>
      rw [hm] at h
      have ha := Option.some.inj h
      simp only [AggregateCreated.mutate] at hm
      cases hr : registry cls.topic with
      | none => rw [hr] at hm; simp at hm
      | some c2 =>
        rw [hr] at hm
        have hagg := Option.some.inj hm
        rw [← ha, ← hagg]
        exact ⟨rfl, rfl⟩
  · rw [if_neg hacc] at h
    simp at h

theorem upcastSteps_zero (cls : AggregateClass) (v : Nat) (st : StateMap) :
    upcastSteps cls v 0 st = some st := rfl

theorem upcastSteps_succ (cls : AggregateClass) (v fuel : Nat) (st : StateMap) :
    upcastSteps cls v (fuel + 1) st =
      match cls.upcasts v with
      | none => none
      | some up => upcastSteps cls (v + 1) fuel (up st) := rfl

theorem upcastLoop_done (cls : AggregateClass) (v : Nat) (st : StateMap)
    (h : cls.class_version ≤ v) : upcastLoop cls v st = some st := by
  rw [upcastLoop, Nat.sub_eq_zero_of_le h]
  rfl

theorem snapshot_mutate_some_cls (registry : Registry) (s : Snapshot)
    (cls : AggregateClass) (hreg : registry s.topic = some cls) :
    Snapshot.mutate registry s =
      (upcastLoop cls ((lookupField s.state "class_version").getD 1)
          (eraseField s.state "class_version")).map
        (fun st2 =>
          { id := s.originator_id
            version := s.originator_version
            cls := cls
            fields := st2
            pending_events := [] }) := by
  rw [Snapshot.mutate, hreg]
  dsimp only
  cases hup : upcastLoop cls ((lookupField s.state "class_version").getD 1)
      (eraseField s.state "class_version") with
  | none => rfl
  | some st2 => rfl

/- Claim theorems. -/

/-- C1: applying an event to an existing aggregate through
AggregateEvent.mutate fails with OriginatorIDError when the event
originator id differs from the aggregate id, and with
OriginatorVersionError when the id matches but the originator version
is not aggregate.version + 1; in both failure cases the returned
aggregate is exactly the input, so its version, its modified time and
every other field are unchanged, because the check raises before any
mutation statement runs. -/
theorem mutate_identity_and_sequence_errors (e : AggregateEvent) (a : Aggregate) :
    (e.originator_id ≠ a.id →
      AggregateEvent.mutate e a =
        (a, some (DomainError.originatorIDError e.originator_id a.id))) ∧
    (e.originator_id = a.id → e.originator_version ≠ a.version + 1 →
      AggregateEvent.mutate e a =
        (a, some (DomainError.originatorVersionError e.originator_version
          (a.version + 1)))) := by
  constructor
  · intro h
    simp [AggregateEvent.mutate, h]
  · intro h1 h2
    simp [AggregateEvent.mutate, h1, h2]

theorem mutate_identity_and_sequence_errors_witness :
    AggregateEvent.mutate evWrongId aggW =
      (aggW, some (DomainError.originatorIDError 5 1)) ∧
    AggregateEvent.mutate evWrongVersion aggW =
      (aggW, some (DomainError.originatorVersionError 7 2)) :=
  ⟨(mutate_identity_and_sequence_errors evWrongId aggW).1 (by decide),
   (mutate_identity_and_sequence_errors evWrongVersion aggW).2 rfl (by decide)⟩

/-- C10: when both the originator id and the originator version of an
event are wrong for the aggregate, AggregateEvent.mutate raises
OriginatorIDError, never OriginatorVersionError: the identity check
strictly precedes the version check. -/
theorem mutate_id_check_precedes_version_check (e : AggregateEvent) (a : Aggregate)
    (h1 : e.originator_id ≠ a.id) (_h2 : e.originator_version ≠ a.version + 1) :
    AggregateEvent.mutate e a =
      (a, some (DomainError.originatorIDError e.originator_id a.id)) := by
  simp [AggregateEvent.mutate, h1]

theorem mutate_id_check_precedes_version_check_witness :
    AggregateEvent.mutate evBothWrong aggW =
      (aggW, some (DomainError.originatorIDError 5 1)) :=
  mutate_id_check_precedes_version_check evBothWrong aggW (by decide) (by decide)

/-- C3: trigger_event builds the new event with
originator_version = aggregate.version + 1 and the current time; when
event construction fails the TypeError propagates and the returned
aggregate is exactly the input, with version, modified time and
pending queue unchanged; when construction succeeds the event is
applied (version becomes originator_version, the modified time becomes
the event timestamp) and appended to the pending queue, all before the
call returns. -/
theorem trigger_event_construction_and_effect (a : Aggregate)
    (ec : AggregateEventClass) (now : Nat) (kw : Kwargs) :
    (ec.makeApply kw = none →
      Aggregate.trigger_event a ec now kw = (a, some DomainError.typeError)) ∧
    (∀ f, ec.makeApply kw = some f →
      Aggregate.trigger_event a ec now kw =
        ({ id := a.id
           version := a.version + 1
           cls := a.cls
           fields := setField (f a.fields) "_modified_on" now
           pending_events :=
             a.pending_events ++ [PendingEvent.event ⟨a.id, a.version + 1, now, f⟩] },
          none)) :=
  ⟨fun hm => trigger_event_none a ec now kw hm,
   fun f hm => trigger_event_some a ec now kw f hm⟩

theorem trigger_event_construction_and_effect_witness :
    Aggregate.trigger_event aggW ecRejecting 9 [] =
      (aggW, some DomainError.typeError) ∧
    Aggregate.trigger_event aggW ecNoop 9 [] =
      ({ id := 1
         version := 2
         cls := clsW
         fields := [("_created_on", 5), ("_modified_on", 9)]
         pending_events := [PendingEvent.event ⟨1, 2, 9, applyNothing⟩] },
        none) :=
  ⟨(trigger_event_construction_and_effect aggW ecRejecting 9 []).1 rfl,
   (trigger_event_construction_and_effect aggW ecNoop 9 []).2 applyNothing rfl⟩

/-- C2: an aggregate is born at version 1: a successful
MetaAggregate.create yields an instance with
version = INITIAL_VERSION = 1 and the given id, and each successful
trigger advances the version by exactly 1, so after N successfully
triggered commands the version is 1 + N and the id is still the id
fixed at creation. -/
theorem create_and_trigger_version_counting (registry : Registry)
    (cls : AggregateClass) (id now : Nat) (kw : Kwargs)
    (calls : List TriggerCall) (a a2 : Aggregate)
    (hc : MetaAggregate.create registry cls id now kw = some a)
    (ht : triggerMany a calls = some a2) :
    a.version = MetaAggregate.INITIAL_VERSION ∧
    MetaAggregate.INITIAL_VERSION = 1 ∧
    a.id = id ∧
    a2.version = 1 + calls.length ∧
    a2.id = id := by
  obtain ⟨hv, hid⟩ := create_some registry cls id now kw a hc
  obtain ⟨hv2, hid2⟩ := triggerMany_version_id calls a a2 ht
  refine ⟨hv, rfl, hid, ?_, ?_⟩
  · rw [hv2, hv]
    show 1 + calls.length = 1 + calls.length
    rfl
  · rw [hid2, hid]

theorem create_and_trigger_version_counting_witness :
    aggC.version = MetaAggregate.INITIAL_VERSION ∧
    MetaAggregate.INITIAL_VERSION = 1 ∧
    aggC.id = 7 ∧
    aggC2.version = 1 + 2 ∧
    aggC2.id = 7 :=
  create_and_trigger_version_counting regW clsW 7 5 []
    [⟨ecNoop, 5, []⟩, ⟨ecNoop, 5, []⟩] aggC aggC2 rfl rfl

/-- C9: collect_events returns all pending events in the order they
were appended and leaves the pending queue empty, so a second call
made immediately afterwards returns the empty list: the drain is
effective exactly once. -/
theorem collect_events_drains_once (a : Aggregate) :
    (Aggregate.collect_events a).1 = a.pending_events ∧
    (Aggregate.collect_events a).2 = { a with pending_events := [] } ∧
    Aggregate.collect_events ((Aggregate.collect_events a).2) =
      ([], { a with pending_events := [] }) := by
  have h := drainLoop_spec a.pending_events []
  rw [List.nil_append] at h
  have hc : Aggregate.collect_events a =
      (a.pending_events, { a with pending_events := [] }) := by
    rw [Aggregate.collect_events, h]
  rw [hc]
  exact ⟨rfl, rfl, rfl⟩

/-- C7 (amended): for every aggregate that carries no field literally
named class_version (the state key the snapshot engine reserves for
schema versioning), restoring the snapshot taken of it, with the topic
resolving back to its class, yields an aggregate with the same id, the
same version and identical field state, and an empty pending queue.
The reservation of the class_version key is the only exception forced
by the code: see the counterexample. -/
theorem snapshot_roundtrip (a : Aggregate) (registry : Registry) (now : Nat)
    (hreg : registry a.cls.topic = some a.cls)
    (hcv : lookupField a.fields "class_version" = none) :
    Snapshot.mutate registry (Snapshot.take a now) =
      some { a with pending_events := [] } := by
  by_cases hgt : a.cls.class_version > 1
  · have htake : Snapshot.take a now =
        { originator_id := a.id
          originator_version := a.version
          timestamp := now
          topic := a.cls.topic
          state := setField a.fields "class_version" a.cls.class_version } := by
      simp [Snapshot.take, hgt]
    rw [htake, snapshot_mutate_some_cls registry _ a.cls hreg]
    dsimp only
    rw [lookupField_setField_self, eraseField_setField_of_none a.fields _ _ hcv]
    rw [Option.getD_some, upcastLoop_done a.cls a.cls.class_version a.fields
      (Nat.le_refl _)]
    rfl
  · have htake : Snapshot.take a now =
        { originator_id := a.id
          originator_version := a.version
          timestamp := now
          topic := a.cls.topic
          state := a.fields } := by
      simp [Snapshot.take, hgt]
    rw [htake, snapshot_mutate_some_cls registry _ a.cls hreg]
    dsimp only
    rw [hcv, eraseField_of_none a.fields _ hcv, Option.getD_none,
      upcastLoop_done a.cls 1 a.fields (by omega)]
    rfl

theorem snapshot_roundtrip_witness :
    Snapshot.mutate regS (Snapshot.take aggS 9) =
      some { aggS with pending_events := [] } :=
  snapshot_roundtrip aggS regS 9 rfl rfl

/-- C7 counterexample: the claim asserts that for every aggregate the
snapshot round trip restores every field except the pending queue. For
an aggregate that carries an ordinary field named class_version, with
a class declaring no schema version, Snapshot.take copies that field
into the snapshot state, and Snapshot.mutate then pops it as the
recorded schema version instead of restoring it, so the restored field
state is missing the field and differs from the original. -/
theorem snapshot_roundtrip_class_version_field :
    (Snapshot.mutate regCX (Snapshot.take aggCX 9)).map Aggregate.fields ≠
      some aggCX.fields := by
  decide

/-- C8: restoring a snapshot recorded at schema version 1 for a class
now declaring schema version 3 applies the registered upgrade steps one
version at a time in ascending order, step 1 to 2 first and then step
2 to 3, to the state mapping before field assignment; when a required
intervening step is not registered, restore fails instead of applying
any default transformation. -/
theorem snapshot_upcast_chaining (registry : Registry) (s : Snapshot)
    (cls : AggregateClass) (hreg : registry s.topic = some cls)
    (hcv : cls.class_version = 3)
    (hsv : lookupField s.state "class_version" = some 1) :
    (∀ f g, cls.upcasts 1 = some f → cls.upcasts 2 = some g →
      Snapshot.mutate registry s =
        some { id := s.originator_id
               version := s.originator_version
               cls := cls
               fields := g (f (eraseField s.state "class_version"))
               pending_events := [] }) ∧
    (cls.upcasts 1 = none → Snapshot.mutate registry s = none) ∧
    (∀ f, cls.upcasts 1 = some f → cls.upcasts 2 = none →
      Snapshot.mutate registry s = none) := by
  have hstart : Snapshot.mutate registry s =
      (upcastSteps cls 1 2 (eraseField s.state "class_version")).map
        (fun st2 =>
          { id := s.originator_id
            version := s.originator_version
            cls := cls
            fields := st2
            pending_events := [] }) := by
    rw [snapshot_mutate_some_cls registry s cls hreg, hsv, Option.getD_some,
      upcastLoop, hcv]
  refine ⟨?_, ?_, ?_⟩
  · intro f g h1 h2
    rw [hstart]
    simp only [upcastSteps_succ, upcastSteps_zero, h1, h2]
    rfl
  · intro h1
    rw [hstart]
    simp only [upcastSteps_succ, h1]
    rfl
  · intro f h1 h2
    rw [hstart]
    simp only [upcastSteps_succ, h1, h2]
    rfl

theorem snapshot_upcast_chaining_witness :
    Snapshot.mutate reg3 snap3 =
      some { id := 7
             version := 4
             cls := cls3
             fields := [("_created_on", 5), ("_modified_on", 6), ("a", 1),
                        ("b", 2), ("c", 3)]
             pending_events := [] } ∧
    Snapshot.mutate reg3 snap3a = none ∧
    Snapshot.mutate reg3 snap3b = none :=
  ⟨(snapshot_upcast_chaining reg3 snap3 cls3 rfl rfl rfl).1 up12 up23 rfl rfl,
   (snapshot_upcast_chaining reg3 snap3a cls3noFirst rfl rfl rfl).2.1 rfl,
   (snapshot_upcast_chaining reg3 snap3b cls3noSecond rfl rfl rfl).2.2 up12 rfl rfl⟩

/-- C4: on an empty recorder max_notification_id is 0 and
select_notifications returns the empty list; after inserting
conflict-free batches totaling K events, max_notification_id is K and
selecting notifications from 1 with limit K returns exactly the
notifications with ids 1..K in strictly ascending order; the ids
assigned within one insert call are consecutive, strictly increasing,
and in the same relative order as the input list. -/
theorem recorder_notification_ids_dense (bs : List (List StoredEvent))
    (r : Recorder) (b : List StoredEvent) (out : List (StoredEvent × Nat))
    (r1 r2 : Recorder)
    (hmany : insertMany emptyRecorder bs = some r)
    (hone : r1.insert_events b = some (out, r2)) :
    emptyRecorder.max_notification_id = 0 ∧
    emptyRecorder.select_notifications 1 3 none none = [] ∧
    r.max_notification_id = (bs.map List.length).sum ∧
    (r.select_notifications 1 r.max_notification_id none none).map Notification.id =
      seqFrom 1 r.max_notification_id ∧
    out.map Prod.fst = b ∧
    out.map Prod.snd = seqFrom (r1.max_notification_id + 1) b.length := by
  obtain ⟨hout, _, _⟩ := insert_events_some r1 b out r2 hone
  refine ⟨rfl, rfl, ?_, select_all_ids r, ?_, ?_⟩
  · have h := insertMany_length bs emptyRecorder r hmany
    simpa [Recorder.max_notification_id, emptyRecorder] using h
  · rw [hout]
    exact assignIds_map_fst _ _
  · rw [hout]
    exact assignIds_map_snd _ _

theorem recorder_notification_ids_dense_witness :
    emptyRecorder.max_notification_id = 0 ∧
    emptyRecorder.select_notifications 1 3 none none = [] ∧
    recorder3.max_notification_id = 3 ∧
    (recorder3.select_notifications 1 3 none none).map Notification.id =
      seqFrom 1 3 ∧
    [(ev1, 1), (ev2, 2)].map Prod.fst = [ev1, ev2] ∧
    [(ev1, 1), (ev2, 2)].map Prod.snd = seqFrom 1 2 :=
  recorder_notification_ids_dense [[ev1, ev2], [ev3]] recorder3 [ev1, ev2]
    [(ev1, 1), (ev2, 2)] emptyRecorder ⟨[ev1, ev2]⟩ rfl rfl

/-- C5: select_notifications with a topic list returns exactly the
notifications whose topic is a member, with their originally assigned
global ids unchanged, in strictly ascending id order, subject to the
start and limit constraints; in the concrete history of the
conformance test, after inserting topic1 and topic2 for one originator
and then topic3 for another, selecting from 1 with limit 3 and topics
topic1 and topic3 returns exactly the notifications with ids 1 and 3
in that order. -/
theorem select_notifications_topic_filter (r : Recorder) (start limit : Nat)
    (ts : List String) :
    (∀ n, n ∈ r.select_notifications start limit none (some ts) →
      n.topic ∈ ts ∧ start ≤ n.id ∧ n ∈ notificationsOf 1 r.events) ∧
    List.Pairwise (fun m n => m.id < n.id)
      (r.select_notifications start limit none (some ts)) ∧
    (∀ n, r.events.length ≤ limit →
      (n ∈ r.select_notifications start limit none (some ts) ↔
        n ∈ notificationsOf 1 r.events ∧ n.topic ∈ ts ∧ start ≤ n.id)) ∧
    insertMany emptyRecorder [[ev1, ev2], [ev3]] = some recorder3 ∧
    recorder3.max_notification_id = 3 ∧
    recorder3.select_events 1 = [ev1, ev2] ∧
    (recorder3.select_notifications 1 3 none
      (some ["topic1", "topic3"])).map Notification.id = [1, 3] :=
  ⟨fun n hn => mem_select_topics r start limit ts n hn,
   select_topics_pairwise r start limit ts,
   fun n hlim => select_topics_complete r start limit ts n hlim,
   by decide, by decide, by decide, by decide⟩

theorem select_notifications_topic_filter_witness :
    (nW.topic ∈ ["topic1", "topic3"] ∧ 1 ≤ nW.id ∧
      nW ∈ notificationsOf 1 recorder3.events) ∧
    nW ∈ recorder3.select_notifications 1 3 none (some ["topic1", "topic3"]) ∧
    insertMany emptyRecorder [[ev1, ev2], [ev3]] = some recorder3 ∧
    (recorder3.select_notifications 1 3 none
      (some ["topic1", "topic3"])).map Notification.id = [1, 3] :=
  ⟨(select_notifications_topic_filter recorder3 1 3 ["topic1", "topic3"]).1
      nW (by decide),
   ((select_notifications_topic_filter recorder3 1 3
      ["topic1", "topic3"]).2.2.1 nW (by decide)).mpr (by decide),
   (select_notifications_topic_filter recorder3 1 3 ["topic1", "topic3"]).2.2.2.1,
   (select_notifications_topic_filter recorder3 1 3
      ["topic1", "topic3"]).2.2.2.2.2.2⟩

/-- C6 (amended): for every fixed originator id, the committed
originator versions form a contiguous ascending sequence with no gaps
and no duplicates, starting at the first version recorded for that
originator, which the conformance test fixes as not necessarily 1 (it
inserts version 0 first); this is enforced at commit time: a batch
that would duplicate an existing originator id and version pair, or
leave a gap above the existing history of an originator, is rejected
in full with nothing from the call becoming visible. -/
theorem insert_version_contiguity (bs : List (List StoredEvent)) (r : Recorder)
    (hmany : insertMany emptyRecorder bs = some r) :
    (∀ oid, isContiguous (versionsOf r.events oid)) ∧
    (∀ r1 b x e, x ∈ r1.events → e ∈ b →
      x.originator_id = e.originator_id →
      x.originator_version = e.originator_version →
      Recorder.insert_events r1 b = none) ∧
    (∀ r1 e, versionsOf r1.events e.originator_id ≠ [] →
      e.originator_version ≠ maxVersion (versionsOf r1.events e.originator_id) + 1 →
      Recorder.insert_events r1 [e] = none) :=
  ⟨insertMany_contiguous bs emptyRecorder r hmany (fun _ => isContiguous_nil),
   fun r1 b x e hx he hid hver => insert_events_none_of_dup r1 b x e hx he hid hver,
   fun r1 e hne hgap => insert_events_none_of_gap r1 e hne hgap⟩

theorem insert_version_contiguity_witness :
    isContiguous (versionsOf recorder3.events 1) ∧
    Recorder.insert_events ⟨[ev1]⟩ [evDup] = none ∧
    Recorder.insert_events ⟨[ev1]⟩ [evGap] = none :=
  ⟨(insert_version_contiguity [[ev1, ev2], [ev3]] recorder3 rfl).1 1,
   (insert_version_contiguity [[ev1, ev2], [ev3]] recorder3 rfl).2.1
      ⟨[ev1]⟩ [evDup] ev1 evDup (by decide) (by decide) rfl rfl,
   (insert_version_contiguity [[ev1, ev2], [ev3]] recorder3 rfl).2.2
      ⟨[ev1]⟩ evGap (by decide) (by decide)⟩

/-- C6 counterexample: the claim asserts that committed versions of an
originator start at 1 and that this is enforced at commit time, which
would require a first insert with originator_version 0 to be rejected.
The conformance test test_insert_select instead inserts exactly this
batch, with versions 0 and 1 for a fresh originator, and asserts that
it commits and is assigned notification ids 1 and 2. The recorder
therefore accepts it. -/
theorem insert_accepts_version_zero :
    Recorder.insert_events emptyRecorder [ev1, ev2] =
      some ([(ev1, 1), (ev2, 2)], ⟨[ev1, ev2]⟩) := by
  decide
